import Mathlib

/-!
Shallow embedding of the auction-ledger core of `src/app.py` (Fantacalcio
league manager): the data model (`Giocatore`, `Squadra`, league state),
the ledger operations (`aggiungi_giocatore`, `rimuovi_giocatore`, the
team-rename block of `tab_nomi`) and the dynamic target allocator
(`target_per_ruolo_dynamic`), together with proofs of the specified
properties.

Modelling conventions:
* Python `int` becomes `Int`.
* The Python dicts keyed by the four role codes `P/D/C/A` become the
  structure `MappaRuoli`; `MappaRuoli.att` is dict indexing restricted to
  the valid keys (`.get(r, default)` style), and `MappaRuoli.trova` is
  exact dict indexing, returning `none` for a missing key (a Python
  `KeyError`).
* The mutable session state (`st.session_state.squadre`,
  `storico_acquisti`, `settings`) becomes the structure `Lega`; a mutation
  of a team inside the list becomes `List.set` at the team's index.
* The Python dicts built by `target_per_ruolo_dynamic` (string keys in
  insertion order) become association lists `List (String × Int)` with
  Python's update-in-place/append-if-new semantics (`dict_set`).
* The float spending percentages `0.10/0.20/0.30/0.40` are modelled as
  exact rationals and Python's `round` (round-half-to-even on the exact
  value) as `pyRound`; for every computation the claims mention the
  double-precision results coincide with the exact rational ones.
-/

/-- Python's `str.strip()`: drop leading and trailing whitespace
(modelled structurally over the character list so that it computes by
kernel reduction; Lean's built-in `String.trim` is extensionally the same
but does not reduce). -/
def strip (s : String) : String :=
  ⟨((s.data.dropWhile Char.isWhitespace).reverse.dropWhile Char.isWhitespace).reverse⟩

/-- The role codes, `RUOLI = ["P", "D", "C", "A"]` in the source. -/
def RUOLI : List String := ["P", "D", "C", "A"]

/-- A total assignment of a value to each of the four role codes
(the shape of the Python dicts keyed by `P/D/C/A`). -/
structure MappaRuoli (α : Type) where
  P : α
  D : α
  C : α
  A : α
deriving DecidableEq, Repr

/-- Dict lookup with a default, `m.get(r, d)` on a dict keyed by the four
role codes. For `r ∈ RUOLI` the default is irrelevant. -/
def MappaRuoli.att {α : Type} (m : MappaRuoli α) (d : α) (r : String) : α :=
  if r = "P" then m.P
  else if r = "D" then m.D
  else if r = "C" then m.C
  else if r = "A" then m.A
  else d

/-- Exact dict indexing `m[r]`: `none` models a Python `KeyError` for a key
outside the four role codes. -/
def MappaRuoli.trova {α : Type} (m : MappaRuoli α) (r : String) : Option α :=
  if r = "P" then some m.P
  else if r = "D" then some m.D
  else if r = "C" then some m.C
  else if r = "A" then some m.A
  else none

/-- Dict assignment `m[r] = v` for a role-keyed dict (the roster dicts are
only ever assigned at one of the four valid keys). -/
def MappaRuoli.imposta {α : Type} (m : MappaRuoli α) (r : String) (v : α) : MappaRuoli α :=
  if r = "P" then { m with P := v }
  else if r = "D" then { m with D := v }
  else if r = "C" then { m with C := v }
  else if r = "A" then { m with A := v }
  else m

/-- A player acquired at auction (`@dataclass Giocatore`). -/
structure Giocatore where
  nome : String
  ruolo : String
  prezzo : Int
deriving DecidableEq, Repr

/-- A team (`@dataclass Squadra`): name, fixed budget, and the roster dict
mapping each role code to the ordered list of acquired players. -/
structure Squadra where
  nome : String
  budget : Int
  rosa : MappaRuoli (List Giocatore)
deriving DecidableEq, Repr

/-- One entry of the purchase log `storico_acquisti`
(`{"squadra", "giocatore", "ruolo", "prezzo"}`). -/
structure Acquisto where
  squadra : String
  giocatore : String
  ruolo : String
  prezzo : Int
deriving DecidableEq, Repr

/-- The code-locked league settings (`SETTINGS` in the source). -/
structure Impostazioni where
  num_squadre : Nat
  crediti : Int
  quote_rosa : MappaRuoli Int
  no_doppioni : Bool
  spending_targets : MappaRuoli ℚ
deriving DecidableEq, Repr

/-- `QUOTE_ROSA = {"P": 3, "D": 8, "C": 8, "A": 6}`. -/
def QUOTE_ROSA : MappaRuoli Int := ⟨3, 8, 8, 6⟩

/-- The constant `SETTINGS` dict of the source: 10 teams, 700 credits,
quotas 3/8/8/6, duplicates disallowed, spending targets 10%/20%/30%/40%. -/
def SETTINGS : Impostazioni :=
  { num_squadre := 10
    crediti := 700
    quote_rosa := QUOTE_ROSA
    no_doppioni := true
    spending_targets := ⟨1/10, 2/10, 3/10, 4/10⟩ }

/-- The whole mutable league state held in `st.session_state`:
settings, the ordered list of teams, and the purchase log. -/
structure Lega where
  settings : Impostazioni
  squadre : List Squadra
  storico : List Acquisto
deriving DecidableEq, Repr

/-- `quote_rimaste(team)[r]`: remaining quota for role `r`,
`quote_rosa[r] - len(team.rosa[r])`. -/
def quote_rimaste (s : Impostazioni) (team : Squadra) (r : String) : Int :=
  s.quote_rosa.att 0 r - ((team.rosa.att [] r).length : Int)

/-- `rosa_completa(team)`: every role is at or above its quota. -/
def rosa_completa (s : Impostazioni) (team : Squadra) : Bool :=
  RUOLI.all fun r => s.quote_rosa.att 0 r ≤ ((team.rosa.att [] r).length : Int)

/-- `spesa_per_ruolo(team)[r]`: total price spent on role `r`. -/
def spesa_per_ruolo (team : Squadra) (r : String) : Int :=
  ((team.rosa.att [] r).map Giocatore.prezzo).sum

/-- Total spend of a team, `sum(g.prezzo for r in RUOLI for g in team.rosa[r])`. -/
def spesa_totale (team : Squadra) : Int :=
  (RUOLI.map (spesa_per_ruolo team)).sum

/-- `crediti_rimasti(team) = team.budget - spesi`. -/
def crediti_rimasti (team : Squadra) : Int :=
  team.budget - spesa_totale team

/-- The list of player names stored in one team's roster, ordered role by
role (the per-team slice of `elenco_giocatori_global`). -/
def nomi_squadra (team : Squadra) : List String :=
  (RUOLI.map fun r => (team.rosa.att [] r).map Giocatore.nome).flatten

/-- `elenco_giocatori_global()`: every stored player name across all teams
and all roles, in team-major order. -/
def elenco_giocatori_global (l : Lega) : List String :=
  (l.squadre.map nomi_squadra).flatten

/-- Python 3 `round` (banker's rounding, ties to even) on an exact
rational, composed with `int(...)`. -/
def pyRound (q : ℚ) : Int :=
  if q - (⌊q⌋ : ℚ) < 1/2 then ⌊q⌋
  else if (1:ℚ)/2 < q - (⌊q⌋ : ℚ) then ⌊q⌋ + 1
  else if ⌊q⌋ % 2 = 0 then ⌊q⌋ else ⌊q⌋ + 1

/-- `target_per_ruolo(team)`: the static per-role targets
`{r: int(round(team.budget * perc.get(r, 0))) for r in RUOLI}`, as the
association list the dict comprehension builds. -/
def target_per_ruolo (s : Impostazioni) (team : Squadra) : List (String × Int) :=
  RUOLI.map fun r => (r, pyRound ((team.budget : ℚ) * s.spending_targets.att 0 r))

/-- Python-dict assignment `d[k] = v` on an association list: overwrite in
place if the key is present, append otherwise. -/
def dict_set : List (String × Int) → String → Int → List (String × Int)
  | [], k, v => [(k, v)]
  | (k', v') :: d, k, v =>
      if k' = k then (k', v) :: d else (k', v') :: dict_set d k v

/-- Python-dict lookup `d[k]` on an association list (only ever used at
keys that are present; `0` stands in for the impossible missing case). -/
def dict_get : List (String × Int) → String → Int
  | [], _ => 0
  | (k', v) :: d, k => if k' = k then v else dict_get d k

/-- The loop of `target_per_ruolo_dynamic` that assigns the remaining
roles: every role but the last gets `int(round(remaining_pool * weight))`,
the last gets `remaining_pool - acc`. -/
def assegna_rimanenti (pool : Int) (w : String → ℚ) :
    List String → Int → List (String × Int)
  | [], _ => []
  | [r], acc => [(r, pool - acc)]
  | r :: r' :: rs, acc =>
      let val := pyRound ((pool : ℚ) * w r)
      (r, val) :: assegna_rimanenti pool w (r' :: rs) (acc + val)

/-- `target_per_ruolo_dynamic(team)`: locks completed roles at their
actual spend, redistributes the leftover budget over the uncompleted roles
proportionally to the original percentages (equal weights if they sum to
`<= 0`), gives the last uncompleted role the exact remainder, and finally
adds any residual (clamped at `0`) onto the first uncompleted role. -/
def target_per_ruolo_dynamic (s : Impostazioni) (team : Squadra) : List (String × Int) :=
  let perc := s.spending_targets
  let quota := s.quote_rosa
  let completed := RUOLI.filter fun r => quota.att 0 r ≤ ((team.rosa.att [] r).length : Int)
  if completed = [] then target_per_ruolo s team
  else
    let t0 := completed.map fun r => (r, spesa_per_ruolo team r)
    let remaining := RUOLI.filter fun r => r ∉ completed
    match remaining with
    | [] => t0
    | r0 :: rs =>
        let pool0 := team.budget - (t0.map Prod.snd).sum
        let pool := if pool0 < 0 then 0 else pool0
        let total_w := ((r0 :: rs).map fun r => perc.att 0 r).sum
        let w : String → ℚ := fun r =>
          if total_w ≤ 0 then 1 / (((r0 :: rs).length : ℚ)) else perc.att 0 r / total_w
        let t1 := t0 ++ assegna_rimanenti pool w (r0 :: rs) 0
        let diff := team.budget - (t1.map Prod.snd).sum
        if diff = 0 then t1
        else dict_set t1 r0 (max 0 (dict_get t1 r0 + diff))

/-- `aggiungi_giocatore(team, nome, ruolo, prezzo)` lifted to the league
state: the team is addressed by its index in `l.squadre` (the Python
caller mutates the aliased list element, and appends to the global
purchase log). Returns the new state and the boolean result. -/
def aggiungi_giocatore (l : Lega) (ti : Nat) (nome ruolo : String) (prezzo : Int) :
    Lega × Bool :=
  match l.squadre[ti]? with
  | none => (l, false)
  | some team =>
    if strip nome = "" ∨ ruolo ∉ RUOLI ∨ prezzo < 0 then (l, false)
    else if l.settings.no_doppioni = true ∧ nome ∈ elenco_giocatori_global l then (l, false)
    else if quote_rimaste l.settings team ruolo ≤ 0 then (l, false)
    else if crediti_rimasti team < prezzo then (l, false)
    else
      let team' : Squadra :=
        { team with
            rosa := team.rosa.imposta ruolo
              (team.rosa.att [] ruolo ++ [⟨strip nome, ruolo, prezzo⟩]) }
      ({ l with
          squadre := l.squadre.set ti team'
          storico := l.storico ++ [⟨team.nome, strip nome, ruolo, prezzo⟩] }, true)

/-- The removal loop of `rimuovi_giocatore`: drop the first player whose
stored name equals `n` exactly; `none` if no entry matches. -/
def rimuovi_lista : List Giocatore → String → Option (List Giocatore)
  | [], _ => none
  | g :: gs, n =>
      if g.nome = n then some gs else (rimuovi_lista gs n).map (g :: ·)

/-- `rimuovi_giocatore(team, ruolo, giocatore_nome)`: the body indexes
`team.rosa[ruolo]` unconditionally, so an invalid role code raises
`KeyError`, modelled by `none`; otherwise the first exact-name match is
popped and `True`/`False` reports whether one was found. -/
def rimuovi_giocatore (team : Squadra) (ruolo giocatore_nome : String) :
    Option (Squadra × Bool) :=
  match team.rosa.trova ruolo with
  | none => none
  | some elenco =>
    match rimuovi_lista elenco giocatore_nome with
    | none => some (team, false)
    | some elenco' =>
        some ({ team with rosa := team.rosa.imposta ruolo elenco' }, true)

/-- `rimuovi_giocatore` lifted to the league state (the Python caller
mutates the aliased team; the purchase log is untouched). -/
def rimuovi_lega (l : Lega) (ti : Nat) (ruolo nome : String) : Option (Lega × Bool) :=
  match l.squadre[ti]? with
  | none => none
  | some team =>
    match rimuovi_giocatore team ruolo nome with
    | none => none
    | some (team', b) => some ({ l with squadre := l.squadre.set ti team' }, b)

/-- The rename block of `tab_nomi` for team `i`: if the entered name is
non-blank after trimming and differs (untrimmed) from the current name,
and no other team already has exactly that (untrimmed) name, the team's
name is set to the entered string as given. -/
def rinomina_squadra (l : Lega) (i : Nat) (nuovo_nome : String) : Lega :=
  match l.squadre[i]? with
  | none => l
  | some team =>
    if strip nuovo_nome ≠ "" ∧ nuovo_nome ≠ team.nome then
      if nuovo_nome ∈ (l.squadre.eraseIdx i).map Squadra.nome then l
      else { l with squadre := l.squadre.set i { team with nome := nuovo_nome } }
    else l

/-- A fresh team with the default budget `SETTINGS["crediti"]` and an
empty roster (`Squadra(nome, crediti)`). -/
def squadra_default (nome : String) : Squadra :=
  ⟨nome, SETTINGS.crediti, ⟨[], [], [], []⟩⟩

/-- The bootstrap league state `_init_default_squadre()`: ten teams with
their default names, empty rosters, and an empty purchase log. -/
def lega_iniziale : Lega :=
  { settings := SETTINGS
    squadre :=
      (["Terzetto Scherzetto", "Squadra 2", "Squadra 3", "Squadra 4", "Squadra 5",
        "Squadra 6", "Squadra 7", "Squadra 8", "Squadra 9", "Squadra 10"]).map squadra_default
    storico := [] }

/-- Apply a list of `aggiungi_giocatore` calls (team index, name, role,
price) in order, keeping the resulting states. -/
def applica_acquisti (l : Lega) (ops : List (Nat × String × String × Int)) : Lega :=
  ops.foldl (fun l' op => (aggiungi_giocatore l' op.1 op.2.1 op.2.2.1 op.2.2.2).1) l

/-- One step of the ledger state machine: an `aggiungi_giocatore` call
(accepted or rejected — a rejected call leaves the state unchanged), a
`rimuovi_giocatore` call that does not fault, or a rename. -/
inductive Step : Lega → Lega → Prop where
  | acquire (l : Lega) (ti : Nat) (nome ruolo : String) (prezzo : Int) :
      Step l (aggiungi_giocatore l ti nome ruolo prezzo).1
  | remove (l : Lega) (ti : Nat) (ruolo nome : String) (l' : Lega) (b : Bool) :
      rimuovi_lega l ti ruolo nome = some (l', b) → Step l l'
  | rename (l : Lega) (ti : Nat) (nuovo : String) :
      Step l (rinomina_squadra l ti nuovo)

/-- League states reachable from the bootstrap state by ledger steps. -/
inductive Reach : Lega → Prop where
  | init : Reach lega_iniziale
  | step {l l' : Lega} : Reach l → Step l l' → Reach l'

/-- League states reachable when every `aggiungi_giocatore` call passes a
name already equal to its trimmed form (the discipline under which the
duplicate check is sound). -/
inductive ReachT : Lega → Prop where
  | init : ReachT lega_iniziale
  | acquire {l : Lega} (ti : Nat) (nome ruolo : String) (prezzo : Int) :
      ReachT l → strip nome = nome → ReachT (aggiungi_giocatore l ti nome ruolo prezzo).1
  | remove {l : Lega} (ti : Nat) (ruolo nome : String) {l' : Lega} {b : Bool} :
      ReachT l → rimuovi_lega l ti ruolo nome = some (l', b) → ReachT l'
  | rename {l : Lega} (ti : Nat) (nuovo : String) :
      ReachT l → ReachT (rinomina_squadra l ti nuovo)

/-- Weight of an uncompleted role per the spec: the original fraction
normalized over the remaining roles, or an equal share if the fraction sum
is `0`. -/
def peso_spec (s : Impostazioni) (remaining : List String) (r : String) : ℚ :=
  let tw := (remaining.map fun r' => s.spending_targets.att 0 r').sum
  if tw = 0 then 1 / (remaining.length : ℚ) else s.spending_targets.att 0 r / tw

/-- The dynamic-target allocation exactly as the specification words it
(for comparison with `target_per_ruolo_dynamic`): completed roles locked
at actual spend; pool = budget minus locked amounts clamped to `≥ 0`;
every remaining role but the last gets `round(pool × weight)` in the
fixed order `P,D,C,A`; the last remaining role gets pool minus the
already-assigned remaining targets. -/
def target_dynamic_spec (s : Impostazioni) (team : Squadra) : List (String × Int) :=
  let quota := s.quote_rosa
  let completed := RUOLI.filter fun r => quota.att 0 r ≤ ((team.rosa.att [] r).length : Int)
  let remaining := RUOLI.filter fun r => r ∉ completed
  let locked := (completed.map fun r => spesa_per_ruolo team r).sum
  let pool := max 0 (team.budget - locked)
  (completed.map fun r => (r, spesa_per_ruolo team r)) ++
    (match remaining with
     | [] => []
     | r0 :: rs =>
        let w := peso_spec s (r0 :: rs)
        ((r0 :: rs).dropLast.map fun r => (r, pyRound ((pool : ℚ) * w r))) ++
          [((r0 :: rs).getLast (List.cons_ne_nil r0 rs),
            pool - ((r0 :: rs).dropLast.map fun r => pyRound ((pool : ℚ) * w r)).sum)])

/-- The team of Scenario D / claim C5: goalkeeper quota completed with a
total goalkeeper spend of 50, every other role still open, budget 700. -/
def squadra_esempio : Squadra :=
  ⟨"Team1", 700, ⟨[⟨"G1", "P", 20⟩, ⟨"G2", "P", 20⟩, ⟨"G3", "P", 10⟩], [], [], []⟩⟩

/-- A reachable state breaking the duplicate invariant: `"X"` is acquired
by team 0, then the *untrimmed* name `" X"` passes the duplicate check for
team 1 and is stored trimmed, so `"X"` ends up in two roster slots. -/
def lega_doppione : Lega :=
  applica_acquisti lega_iniziale [(0, "X", "P", 0), (1, " X", "P", 0)]

/-- Twenty-five successful zero-price acquisitions that fill every quota
of team 0 (3 P, 8 D, 8 C, 6 A). -/
def acquisti_completi : List (Nat × String × String × Int) :=
  [(0, "p1", "P", 0), (0, "p2", "P", 0), (0, "p3", "P", 0),
   (0, "d1", "D", 0), (0, "d2", "D", 0), (0, "d3", "D", 0), (0, "d4", "D", 0),
   (0, "d5", "D", 0), (0, "d6", "D", 0), (0, "d7", "D", 0), (0, "d8", "D", 0),
   (0, "c1", "C", 0), (0, "c2", "C", 0), (0, "c3", "C", 0), (0, "c4", "C", 0),
   (0, "c5", "C", 0), (0, "c6", "C", 0), (0, "c7", "C", 0), (0, "c8", "C", 0),
   (0, "a1", "A", 0), (0, "a2", "A", 0), (0, "a3", "A", 0), (0, "a4", "A", 0),
   (0, "a5", "A", 0), (0, "a6", "A", 0)]

/-- A reachable state in which team 0 has completed every quota while
spending 0 credits. -/
def lega_completa : Lega :=
  applica_acquisti lega_iniziale acquisti_completi

/-- Team 0 of `lega_completa`. -/
def squadra_completa : Squadra :=
  lega_completa.squadre.getD 0 (squadra_default "")

/-- Per-team ledger invariant: the budget is the default 700, every stored
price is non-negative, the spend fits in the budget, and no role exceeds
its quota. -/
def InvSquadra (team : Squadra) : Prop :=
  team.budget = 700 ∧
  (∀ r : String, ∀ g ∈ team.rosa.att [] r, 0 ≤ g.prezzo) ∧
  spesa_totale team ≤ team.budget ∧
  (∀ r ∈ RUOLI, ((team.rosa.att [] r).length : Int) ≤ SETTINGS.quote_rosa.att 0 r)

/-- League-wide ledger invariant: the settings are the code-locked
`SETTINGS` and every team satisfies `InvSquadra`. -/
def InvLega (l : Lega) : Prop :=
  l.settings = SETTINGS ∧ ∀ team ∈ l.squadre, InvSquadra team

set_option maxRecDepth 100000

theorem att_imposta_self {α : Type} (m : MappaRuoli α) (d v : α) (r : String)
    (h : r ∈ RUOLI) : (m.imposta r v).att d r = v := by
  simp only [RUOLI, List.mem_cons, List.mem_singleton, List.not_mem_nil, or_false] at h
  rcases h with rfl | rfl | rfl | rfl <;> rfl

theorem att_imposta_ne {α : Type} (m : MappaRuoli α) (d v : α) (r r' : String)
    (h : r' ≠ r) : (m.imposta r v).att d r' = m.att d r' := by
  unfold MappaRuoli.imposta MappaRuoli.att
  split_ifs <;> simp_all

theorem trova_mem {α : Type} (m : MappaRuoli α) (d : α) (r : String) (h : r ∈ RUOLI) :
    m.trova r = some (m.att d r) := by
  simp only [RUOLI, List.mem_cons, List.mem_singleton, List.not_mem_nil, or_false] at h
  rcases h with rfl | rfl | rfl | rfl <;> rfl

theorem trova_not_mem {α : Type} (m : MappaRuoli α) (r : String) (h : r ∉ RUOLI) :
    m.trova r = none := by
  simp only [RUOLI, List.mem_cons, List.mem_singleton, List.not_mem_nil, or_false,
    not_or] at h
  unfold MappaRuoli.trova
  split_ifs <;> simp_all

theorem aggiungi_spec (l : Lega) (ti : Nat) (team : Squadra) (nome ruolo : String)
    (prezzo : Int) (h : l.squadre[ti]? = some team) :
    ((aggiungi_giocatore l ti nome ruolo prezzo).2 = true ↔
      (strip nome ≠ "" ∧ ruolo ∈ RUOLI ∧ 0 ≤ prezzo ∧
       (l.settings.no_doppioni = true → nome ∉ elenco_giocatori_global l) ∧
       0 < quote_rimaste l.settings team ruolo ∧
       prezzo ≤ crediti_rimasti team)) ∧
    ((aggiungi_giocatore l ti nome ruolo prezzo).2 = true →
      (aggiungi_giocatore l ti nome ruolo prezzo).1 = { l with
          squadre := l.squadre.set ti
            { team with rosa := (team.rosa.imposta ruolo
                (team.rosa.att [] ruolo ++ [⟨strip nome, ruolo, prezzo⟩])) }
          storico := l.storico ++ [⟨team.nome, strip nome, ruolo, prezzo⟩] }) ∧
    ((aggiungi_giocatore l ti nome ruolo prezzo).2 = false →
      (aggiungi_giocatore l ti nome ruolo prezzo).1 = l) := by
  simp only [aggiungi_giocatore, h]
  split_ifs with h1 h2 h3 h4
  · refine ⟨?_, by simp, fun _ => rfl⟩
    simp only [false_iff, not_and, not_imp_not]
    rintro hn hr hp
    rcases h1 with h1 | h1 | h1
    · exact absurd h1 hn
    · exact absurd hr h1
    · omega
  · push_neg at h1
    refine ⟨?_, by simp, fun _ => rfl⟩
    simp only [false_iff, not_and]
    rintro _ _ _ hdup
    exact absurd h2.2 (hdup h2.1)
  · push_neg at h1
    refine ⟨?_, by simp, fun _ => rfl⟩
    simp only [false_iff, not_and]
    rintro _ _ _ _ hq
    omega
  · push_neg at h1
    refine ⟨?_, by simp, fun _ => rfl⟩
    simp only [false_iff, not_and]
    rintro _ _ _ _ _ hc
    omega
  · push_neg at h1
    refine ⟨?_, fun _ => rfl, by simp⟩
    simp only [true_iff]
    refine ⟨h1.1, h1.2.1, by omega, ?_, by omega, by omega⟩
    intro hnd hmem
    exact h2 ⟨hnd, hmem⟩

theorem rimuovi_lista_none {gs : List Giocatore} {n : String} :
    rimuovi_lista gs n = none ↔ n ∉ gs.map Giocatore.nome := by
  induction gs with
  | nil => simp [rimuovi_lista]
  | cons g gs ih =>
    by_cases hg : g.nome = n
    · simp [rimuovi_lista, hg]
    · simp [rimuovi_lista, hg, ih, Ne.symm hg]

theorem rimuovi_lista_some {gs gs' : List Giocatore} {n : String}
    (h : rimuovi_lista gs n = some gs') :
    ∃ pre g post, gs = pre ++ g :: post ∧ g.nome = n ∧
      (∀ g' ∈ pre, g'.nome ≠ n) ∧ gs' = pre ++ post := by
  induction gs generalizing gs' with
  | nil => simp [rimuovi_lista] at h
  | cons g gs ih =>
    by_cases hg : g.nome = n
    · simp only [rimuovi_lista, if_pos hg, Option.some.injEq] at h
      exact ⟨[], g, gs, by simp, hg, by simp, by simp [h]⟩
    · simp only [rimuovi_lista, if_neg hg, Option.map_eq_some'] at h
      obtain ⟨a, ha, rfl⟩ := h
      obtain ⟨pre, g0, post, hsplit, hn, hpre, rfl⟩ := ih ha
      refine ⟨g :: pre, g0, post, by simp [hsplit], hn, ?_, by simp⟩
      intro g' hg'
      rcases List.mem_cons.mp hg' with rfl | hmem
      · exact hg
      · exact hpre g' hmem

theorem rimuovi_giocatore_valido (team : Squadra) (ruolo n : String) (h : ruolo ∈ RUOLI) :
    rimuovi_giocatore team ruolo n =
      (match rimuovi_lista (team.rosa.att [] ruolo) n with
       | none => some (team, false)
       | some elenco' => some ({ team with rosa := team.rosa.imposta ruolo elenco' }, true)) := by
  unfold rimuovi_giocatore
  rw [trova_mem team.rosa [] ruolo h]

theorem rimuovi_giocatore_non_valido (team : Squadra) (ruolo n : String)
    (h : ruolo ∉ RUOLI) : rimuovi_giocatore team ruolo n = none := by
  unfold rimuovi_giocatore
  rw [trova_not_mem team.rosa ruolo h]

theorem rinomina_spec (l : Lega) (i : Nat) (team : Squadra) (nuovo : String)
    (h : l.squadre[i]? = some team) :
    ((strip nuovo = "" ∨ nuovo = team.nome) → rinomina_squadra l i nuovo = l) ∧
    (strip nuovo ≠ "" → nuovo ≠ team.nome →
      nuovo ∈ (l.squadre.eraseIdx i).map Squadra.nome → rinomina_squadra l i nuovo = l) ∧
    (strip nuovo ≠ "" → nuovo ≠ team.nome →
      nuovo ∉ (l.squadre.eraseIdx i).map Squadra.nome →
      rinomina_squadra l i nuovo =
        { l with squadre := l.squadre.set i { team with nome := nuovo } }) := by
  simp only [rinomina_squadra, h]
  split_ifs with h1 h2
  · refine ⟨fun hno => ?_, fun _ _ _ => rfl, fun _ _ hni => absurd h2 hni⟩
    rcases hno with hno | hno
    · exact absurd hno h1.1
    · exact absurd hno h1.2
  · refine ⟨fun hno => ?_, fun _ _ hni => absurd hni h2, fun _ _ _ => rfl⟩
    rcases hno with hno | hno
    · exact absurd hno h1.1
    · exact absurd hno h1.2
  · push_neg at h1
    refine ⟨fun _ => rfl, fun _ _ _ => rfl, fun hs hn _ => absurd (h1 hs) hn⟩

theorem applica_acquisti_cons (l : Lega) (op : Nat × String × String × Int)
    (ops : List (Nat × String × String × Int)) :
    applica_acquisti l (op :: ops) =
      applica_acquisti (aggiungi_giocatore l op.1 op.2.1 op.2.2.1 op.2.2.2).1 ops := rfl

theorem reach_applica (l : Lega) (h : Reach l) (ops : List (Nat × String × String × Int)) :
    Reach (applica_acquisti l ops) := by
  induction ops generalizing l with
  | nil => exact h
  | cons op ops ih =>
    rw [applica_acquisti_cons]
    exact ih _ (h.step (Step.acquire l op.1 op.2.1 op.2.2.1 op.2.2.2))

theorem att_imposta {α : Type} (m : MappaRuoli α) (d v : α) (ruolo : String)
    (h : ruolo ∈ RUOLI) (r : String) :
    (m.imposta ruolo v).att d r = if r = ruolo then v else m.att d r := by
  by_cases hr : r = ruolo
  · rw [if_pos hr, hr]
    exact att_imposta_self m d v ruolo h
  · rw [if_neg hr]
    exact att_imposta_ne m d v ruolo r hr

theorem spesa_per_ruolo_imposta (team : Squadra) (ruolo : String) (h : ruolo ∈ RUOLI)
    (gs : List Giocatore) (r : String) :
    spesa_per_ruolo { team with rosa := team.rosa.imposta ruolo gs } r =
      if r = ruolo then (gs.map Giocatore.prezzo).sum else spesa_per_ruolo team r := by
  unfold spesa_per_ruolo
  rw [show ({ team with rosa := team.rosa.imposta ruolo gs } : Squadra).rosa
      = team.rosa.imposta ruolo gs from rfl, att_imposta team.rosa [] gs ruolo h r]
  split_ifs <;> rfl

theorem spesa_totale_imposta (team : Squadra) (ruolo : String) (h : ruolo ∈ RUOLI)
    (gs : List Giocatore) :
    spesa_totale { team with rosa := team.rosa.imposta ruolo gs } =
      spesa_totale team - spesa_per_ruolo team ruolo + (gs.map Giocatore.prezzo).sum := by
  have hP := spesa_per_ruolo_imposta team ruolo h gs "P"
  have hD := spesa_per_ruolo_imposta team ruolo h gs "D"
  have hC := spesa_per_ruolo_imposta team ruolo h gs "C"
  have hA := spesa_per_ruolo_imposta team ruolo h gs "A"
  have hru : ruolo = "P" ∨ ruolo = "D" ∨ ruolo = "C" ∨ ruolo = "A" := by
    simpa [RUOLI] using h
  unfold spesa_totale
  simp only [RUOLI, List.map_cons, List.map_nil, List.sum_cons, List.sum_nil]
  rcases hru with rfl | rfl | rfl | rfl <;>
    · rw [hP, hD, hC, hA]
      split_ifs <;> simp_all
      ring

theorem inv_squadra_default (nome : String) : InvSquadra (squadra_default nome) := by
  refine ⟨rfl, ?_, ?_, ?_⟩
  · intro r g hg
    unfold squadra_default MappaRuoli.att at hg
    split_ifs at hg <;> simp_all
  · show spesa_totale (squadra_default nome) ≤ (squadra_default nome).budget
    norm_num [spesa_totale, spesa_per_ruolo, squadra_default, RUOLI, MappaRuoli.att, SETTINGS]
  · intro r hr
    have hrosa : (squadra_default nome).rosa = ⟨[], [], [], []⟩ := rfl
    have : r = "P" ∨ r = "D" ∨ r = "C" ∨ r = "A" := by simpa [RUOLI] using hr
    rcases this with rfl | rfl | rfl | rfl <;> rw [hrosa] <;> decide

theorem inv_iniziale : InvLega lega_iniziale := by
  refine ⟨rfl, ?_⟩
  intro team ht
  have : team ∈ (["Terzetto Scherzetto", "Squadra 2", "Squadra 3", "Squadra 4", "Squadra 5",
      "Squadra 6", "Squadra 7", "Squadra 8", "Squadra 9", "Squadra 10"]).map squadra_default :=
    ht
  obtain ⟨nome, _, rfl⟩ := List.mem_map.mp this
  exact inv_squadra_default nome

theorem inv_set (l : Lega) (ti : Nat) (t' : Squadra) (hinv : InvLega l)
    (ht' : InvSquadra t') : InvLega { l with squadre := l.squadre.set ti t' } := by
  refine ⟨hinv.1, ?_⟩
  intro t ht
  rcases List.mem_or_eq_of_mem_set ht with hm | rfl
  · exact hinv.2 t hm
  · exact ht'

theorem inv_aggiungi (l : Lega) (ti : Nat) (nome ruolo : String) (prezzo : Int)
    (hinv : InvLega l) : InvLega (aggiungi_giocatore l ti nome ruolo prezzo).1 := by
  rcases hli : l.squadre[ti]? with _ | team
  · have : (aggiungi_giocatore l ti nome ruolo prezzo).1 = l := by
      simp [aggiungi_giocatore, hli]
    rw [this]; exact hinv
  · obtain ⟨hiff, hsucc, hfail⟩ := aggiungi_spec l ti team nome ruolo prezzo hli
    rcases hb : (aggiungi_giocatore l ti nome ruolo prezzo).2 with _ | _
    · rw [hfail hb]; exact hinv
    · rw [hsucc hb]
      obtain ⟨hn, hr, hp, hdup, hq, hc⟩ := hiff.mp hb
      have hteam : InvSquadra team := hinv.2 team (List.getElem?_mem hli)
      obtain ⟨hbud, hpos, hsp, hcnt⟩ := hteam
      have hset := att_imposta team.rosa [] (team.rosa.att [] ruolo ++
        [⟨strip nome, ruolo, prezzo⟩]) ruolo hr
      refine inv_set _ ti _ hinv ⟨hbud, ?_, ?_, ?_⟩
      · intro r g hg
        rw [show ({ team with rosa := team.rosa.imposta ruolo (team.rosa.att [] ruolo ++
            [⟨strip nome, ruolo, prezzo⟩]) } : Squadra).rosa = team.rosa.imposta ruolo
            (team.rosa.att [] ruolo ++ [⟨strip nome, ruolo, prezzo⟩]) from rfl,
          hset r] at hg
        split_ifs at hg with hcase
        · rcases List.mem_append.mp hg with hold | hnew
          · exact hpos r g (by rwa [hcase])
          · simp only [List.mem_singleton] at hnew
            rw [hnew]
            exact hp
        · exact hpos r g hg
      · rw [spesa_totale_imposta team ruolo hr, List.map_append, List.sum_append]
        simp only [List.map_cons, List.map_nil, List.sum_cons, List.sum_nil]
        unfold crediti_rimasti at hc
        have hde : spesa_per_ruolo team ruolo =
            ((team.rosa.att [] ruolo).map Giocatore.prezzo).sum := rfl
        omega
      · intro r hrm
        rw [show ({ team with rosa := team.rosa.imposta ruolo (team.rosa.att [] ruolo ++
            [⟨strip nome, ruolo, prezzo⟩]) } : Squadra).rosa = team.rosa.imposta ruolo
            (team.rosa.att [] ruolo ++ [⟨strip nome, ruolo, prezzo⟩]) from rfl,
          hset r]
        split_ifs with hcase
        · have hq2 := hq
          unfold quote_rimaste at hq2
          rw [hinv.1] at hq2
          have := hcnt ruolo hr
          subst hcase
          simp only [List.length_append, List.length_cons, List.length_nil]
          omega
        · exact hcnt r hrm

theorem rimuovi_lega_eq (l : Lega) (ti : Nat) (ruolo nome : String) (team : Squadra)
    (h : l.squadre[ti]? = some team) :
    rimuovi_lega l ti ruolo nome =
      (match rimuovi_giocatore team ruolo nome with
       | none => none
       | some (team', b) => some ({ l with squadre := l.squadre.set ti team' }, b)) := by
  unfold rimuovi_lega
  rw [h]

theorem rimuovi_lega_none (l : Lega) (ti : Nat) (ruolo nome : String)
    (h : l.squadre[ti]? = none) : rimuovi_lega l ti ruolo nome = none := by
  unfold rimuovi_lega
  rw [h]

theorem inv_rimuovi {l : Lega} {ti : Nat} {ruolo nome : String} {l' : Lega} {b : Bool}
    (hrem : rimuovi_lega l ti ruolo nome = some (l', b)) (hinv : InvLega l) :
    InvLega l' := by
  rcases hli : l.squadre[ti]? with _ | team
  · rw [rimuovi_lega_none l ti ruolo nome hli] at hrem
    exact absurd hrem (by simp)
  · rw [rimuovi_lega_eq l ti ruolo nome team hli] at hrem
    by_cases hr : ruolo ∈ RUOLI
    · rw [rimuovi_giocatore_valido team ruolo nome hr] at hrem
      have hteam : InvSquadra team := hinv.2 team (List.getElem?_mem hli)
      obtain ⟨hbud, hpos, hsp, hcnt⟩ := hteam
      rcases hrl : rimuovi_lista (team.rosa.att [] ruolo) nome with _ | elenco'
      · rw [hrl] at hrem
        simp only [Option.some.injEq, Prod.mk.injEq] at hrem
        rw [← hrem.1]
        refine inv_set l ti team hinv ⟨hbud, hpos, hsp, hcnt⟩
      · rw [hrl] at hrem
        simp only [Option.some.injEq, Prod.mk.injEq] at hrem
        obtain ⟨pre, g0, post, hsplit, hg0, _, rfl⟩ := rimuovi_lista_some hrl
        rw [← hrem.1]
        have hset := att_imposta team.rosa [] (pre ++ post) ruolo hr
        have hg0pos : 0 ≤ g0.prezzo := by
          refine hpos ruolo g0 ?_
          rw [hsplit]
          exact List.mem_append.mpr (Or.inr (List.mem_cons_self g0 post))
        have hspr : spesa_per_ruolo team ruolo =
            (pre.map Giocatore.prezzo).sum + g0.prezzo + (post.map Giocatore.prezzo).sum := by
          unfold spesa_per_ruolo
          rw [hsplit]
          simp [List.sum_append]
          ring
        refine inv_set l ti _ hinv ⟨hbud, ?_, ?_, ?_⟩
        · intro r g hg
          rw [show ({ team with rosa := team.rosa.imposta ruolo (pre ++ post) } : Squadra).rosa
              = team.rosa.imposta ruolo (pre ++ post) from rfl, hset r] at hg
          split_ifs at hg with hcase
          · refine hpos r g ?_
            rw [hcase, hsplit]
            rcases List.mem_append.mp hg with hc | hc
            · exact List.mem_append.mpr (Or.inl hc)
            · exact List.mem_append.mpr (Or.inr (List.mem_cons_of_mem g0 hc))
          · exact hpos r g hg
        · rw [spesa_totale_imposta team ruolo hr, List.map_append, List.sum_append, hspr]
          have hb2 : ({ team with rosa := team.rosa.imposta ruolo (pre ++ post) } : Squadra).budget
              = team.budget := rfl
          rw [hb2]
          omega
        · intro r hrm
          rw [show ({ team with rosa := team.rosa.imposta ruolo (pre ++ post) } : Squadra).rosa
              = team.rosa.imposta ruolo (pre ++ post) from rfl, hset r]
          split_ifs with hcase
          · have hlen : (team.rosa.att [] ruolo).length = pre.length + 1 + post.length := by
              rw [hsplit]
              simp
              omega
            have := hcnt ruolo hr
            subst hcase
            simp only [List.length_append]
            omega
          · exact hcnt r hrm
    · rw [rimuovi_giocatore_non_valido team ruolo nome hr] at hrem
      exact absurd hrem (by simp)

theorem rinomina_eq (l : Lega) (i : Nat) (nuovo : String) (team : Squadra)
    (h : l.squadre[i]? = some team) :
    rinomina_squadra l i nuovo =
      (if strip nuovo ≠ "" ∧ nuovo ≠ team.nome then
        (if nuovo ∈ (l.squadre.eraseIdx i).map Squadra.nome then l
         else { l with squadre := l.squadre.set i { team with nome := nuovo } })
       else l) := by
  unfold rinomina_squadra
  rw [h]

theorem rinomina_none (l : Lega) (i : Nat) (nuovo : String)
    (h : l.squadre[i]? = none) : rinomina_squadra l i nuovo = l := by
  unfold rinomina_squadra
  rw [h]

theorem inv_rinomina (l : Lega) (i : Nat) (nuovo : String) (hinv : InvLega l) :
    InvLega (rinomina_squadra l i nuovo) := by
  rcases hli : l.squadre[i]? with _ | team
  · rw [rinomina_none l i nuovo hli]
    exact hinv
  · rw [rinomina_eq l i nuovo team hli]
    split_ifs with h1 h2
    · exact hinv
    · exact inv_set l i _ hinv (hinv.2 team (List.getElem?_mem hli))
    · exact hinv

theorem reach_inv {l : Lega} (h : Reach l) : InvLega l := by
  induction h with
  | init => exact inv_iniziale
  | step _ hstep ih =>
    cases hstep with
    | acquire ti nome ruolo prezzo => exact inv_aggiungi _ ti nome ruolo prezzo ih
    | remove ti ruolo nome lp b hrem => exact inv_rimuovi hrem ih
    | rename ti nuovo => exact inv_rinomina _ ti nuovo ih

theorem nodup_sandwich {α : Type} {a : α} {X Y : List α} (h : (X ++ Y).Nodup)
    (ha : a ∉ X ++ Y) : (X ++ a :: Y).Nodup := by
  rw [List.nodup_middle]
  exact List.nodup_cons.mpr ⟨ha, h⟩

theorem nomi_squadra_eq (team : Squadra) :
    nomi_squadra team =
      team.rosa.P.map Giocatore.nome ++ (team.rosa.D.map Giocatore.nome ++
        (team.rosa.C.map Giocatore.nome ++ team.rosa.A.map Giocatore.nome)) := by
  simp [nomi_squadra, RUOLI, MappaRuoli.att]

theorem nomi_squadra_acquisto (team : Squadra) (ruolo : String) (h : ruolo ∈ RUOLI)
    (g : Giocatore) :
    ∃ X Y, nomi_squadra team = X ++ Y ∧
      nomi_squadra { team with rosa := (team.rosa.imposta ruolo
        (team.rosa.att [] ruolo ++ [g])) } = X ++ g.nome :: Y := by
  have hru : ruolo = "P" ∨ ruolo = "D" ∨ ruolo = "C" ∨ ruolo = "A" := by
    simpa [RUOLI] using h
  rcases hru with rfl | rfl | rfl | rfl
  · exact ⟨team.rosa.P.map Giocatore.nome,
      team.rosa.D.map Giocatore.nome ++ (team.rosa.C.map Giocatore.nome ++
        team.rosa.A.map Giocatore.nome),
      by rw [nomi_squadra_eq], by rw [nomi_squadra_eq]; simp [MappaRuoli.att, MappaRuoli.imposta]⟩
  · exact ⟨team.rosa.P.map Giocatore.nome ++ team.rosa.D.map Giocatore.nome,
      team.rosa.C.map Giocatore.nome ++ team.rosa.A.map Giocatore.nome,
      by rw [nomi_squadra_eq]; simp, by rw [nomi_squadra_eq]; simp [MappaRuoli.att, MappaRuoli.imposta]⟩
  · exact ⟨team.rosa.P.map Giocatore.nome ++ (team.rosa.D.map Giocatore.nome ++
        team.rosa.C.map Giocatore.nome),
      team.rosa.A.map Giocatore.nome,
      by rw [nomi_squadra_eq]; simp, by rw [nomi_squadra_eq]; simp [MappaRuoli.att, MappaRuoli.imposta]⟩
  · exact ⟨team.rosa.P.map Giocatore.nome ++ (team.rosa.D.map Giocatore.nome ++
        (team.rosa.C.map Giocatore.nome ++ team.rosa.A.map Giocatore.nome)),
      [],
      by rw [nomi_squadra_eq]; simp, by rw [nomi_squadra_eq]; simp [MappaRuoli.att, MappaRuoli.imposta]⟩

theorem mem_flatten_set {α : Type} (f : α → List String) (a : String) :
    ∀ (ss : List α) (ti : Nat) (t t' : α), ss[ti]? = some t →
    (∀ x ∈ f t', x ∈ f t ∨ x = a) →
    ∀ x ∈ ((ss.set ti t').map f).flatten, x ∈ (ss.map f).flatten ∨ x = a := by
  intro ss
  induction ss with
  | nil => intro ti t t' h; simp at h
  | cons s rest ih =>
    intro ti t t' h hsub x hx
    cases ti with
    | zero =>
      simp only [List.getElem?_cons_zero, Option.some.injEq] at h
      subst h
      simp only [List.set_cons_zero, List.map_cons, List.flatten_cons, List.mem_append] at hx
      simp only [List.map_cons, List.flatten_cons, List.mem_append]
      rcases hx with hx | hx
      · rcases hsub x hx with hm | hm
        · exact Or.inl (Or.inl hm)
        · exact Or.inr hm
      · exact Or.inl (Or.inr hx)
    | succ n =>
      simp only [List.getElem?_cons_succ] at h
      simp only [List.set_cons_succ, List.map_cons, List.flatten_cons, List.mem_append] at hx
      simp only [List.map_cons, List.flatten_cons, List.mem_append]
      rcases hx with hx | hx
      · exact Or.inl (Or.inl hx)
      · rcases ih n t t' h hsub x hx with hm | hm
        · exact Or.inl (Or.inr hm)
        · exact Or.inr hm

theorem nodup_flatten_set {α : Type} (f : α → List String) (a : String) :
    ∀ (ss : List α) (ti : Nat) (t t' : α), ss[ti]? = some t →
    (∃ X Y, f t = X ++ Y ∧ f t' = X ++ a :: Y) →
    a ∉ (ss.map f).flatten →
    ((ss.map f).flatten).Nodup →
    (((ss.set ti t').map f).flatten).Nodup := by
  intro ss
  induction ss with
  | nil => intro ti t t' h; simp at h
  | cons s rest ih =>
    intro ti t t' h hdec ha hnd
    obtain ⟨X, Y, hXY, hXY'⟩ := hdec
    cases ti with
    | zero =>
      simp only [List.getElem?_cons_zero, Option.some.injEq] at h
      subst h
      simp only [List.map_cons, List.flatten_cons] at ha hnd
      rw [hXY] at ha hnd
      rw [List.append_assoc] at ha hnd
      simp only [List.set_cons_zero, List.map_cons, List.flatten_cons]
      rw [hXY', List.append_assoc, List.cons_append]
      exact nodup_sandwich hnd ha
    | succ n =>
      simp only [List.getElem?_cons_succ] at h
      simp only [List.set_cons_succ, List.map_cons, List.flatten_cons] at hnd ⊢
      simp only [List.map_cons, List.flatten_cons, List.mem_append, not_or] at ha
      rw [List.nodup_append] at hnd ⊢
      refine ⟨hnd.1, ih n t t' h ⟨X, Y, hXY, hXY'⟩ ha.2 hnd.2.1, ?_⟩
      intro x hxs hx'
      have hsub : ∀ y ∈ f t', y ∈ f t ∨ y = a := by
        intro y hy
        rw [hXY'] at hy
        rw [hXY]
        rcases List.mem_append.mp hy with hy | hy
        · exact Or.inl (List.mem_append.mpr (Or.inl hy))
        · rcases List.mem_cons.mp hy with rfl | hy
          · exact Or.inr rfl
          · exact Or.inl (List.mem_append.mpr (Or.inr hy))
      rcases mem_flatten_set f a rest n t t' h hsub x hx' with hm | rfl
      · exact hnd.2.2 hxs hm
      · exact ha.1 hxs

theorem flatten_set_sublist {α : Type} (f : α → List String) :
    ∀ (ss : List α) (ti : Nat) (t t' : α), ss[ti]? = some t →
    List.Sublist (f t') (f t) →
    List.Sublist (((ss.set ti t').map f).flatten) ((ss.map f).flatten) := by
  intro ss
  induction ss with
  | nil => intro ti t t' h; simp at h
  | cons s rest ih =>
    intro ti t t' h hsub
    cases ti with
    | zero =>
      simp only [List.getElem?_cons_zero, Option.some.injEq] at h
      subst h
      simp only [List.set_cons_zero, List.map_cons, List.flatten_cons]
      exact hsub.append (List.Sublist.refl _)
    | succ n =>
      simp only [List.getElem?_cons_succ] at h
      simp only [List.set_cons_succ, List.map_cons, List.flatten_cons]
      exact (List.Sublist.refl _).append (ih n t t' h hsub)

theorem flatten_set_congr {α : Type} (f : α → List String) :
    ∀ (ss : List α) (ti : Nat) (t t' : α), ss[ti]? = some t → f t' = f t →
    ((ss.set ti t').map f).flatten = (ss.map f).flatten := by
  intro ss
  induction ss with
  | nil => intro ti t t' h; simp at h
  | cons s rest ih =>
    intro ti t t' h heq
    cases ti with
    | zero =>
      simp only [List.getElem?_cons_zero, Option.some.injEq] at h
      subst h
      simp [List.set_cons_zero, heq]
    | succ n =>
      simp only [List.getElem?_cons_succ] at h
      simp only [List.set_cons_succ, List.map_cons, List.flatten_cons]
      rw [ih n t t' h heq]

theorem reachT_reach {l : Lega} (h : ReachT l) : Reach l := by
  induction h with
  | init => exact Reach.init
  | acquire ti nome ruolo prezzo _ _ ih =>
    exact ih.step (Step.acquire _ ti nome ruolo prezzo)
  | remove ti ruolo nome _ hrem ih => exact ih.step (Step.remove _ ti ruolo nome _ _ hrem)
  | rename ti nuovo _ ih => exact ih.step (Step.rename _ ti nuovo)

theorem nomi_squadra_rimozione (team : Squadra) (ruolo : String) (h : ruolo ∈ RUOLI)
    (elenco' : List Giocatore)
    (hsub : List.Sublist elenco' (team.rosa.att [] ruolo)) :
    List.Sublist (nomi_squadra { team with rosa := team.rosa.imposta ruolo elenco' })
      (nomi_squadra team) := by
  have hru : ruolo = "P" ∨ ruolo = "D" ∨ ruolo = "C" ∨ ruolo = "A" := by
    simpa [RUOLI] using h
  have hmap := hsub.map Giocatore.nome
  rcases hru with rfl | rfl | rfl | rfl
  · rw [nomi_squadra_eq, nomi_squadra_eq]
    exact List.Sublist.append hmap (List.Sublist.refl _)
  · rw [nomi_squadra_eq, nomi_squadra_eq]
    exact List.Sublist.append (List.Sublist.refl _)
      (List.Sublist.append hmap (List.Sublist.refl _))
  · rw [nomi_squadra_eq, nomi_squadra_eq]
    exact List.Sublist.append (List.Sublist.refl _)
      (List.Sublist.append (List.Sublist.refl _)
        (List.Sublist.append hmap (List.Sublist.refl _)))
  · rw [nomi_squadra_eq, nomi_squadra_eq]
    exact List.Sublist.append (List.Sublist.refl _)
      (List.Sublist.append (List.Sublist.refl _)
        (List.Sublist.append (List.Sublist.refl _) hmap))

theorem elenco_rinomina (l : Lega) (i : Nat) (nuovo : String) :
    elenco_giocatori_global (rinomina_squadra l i nuovo) = elenco_giocatori_global l := by
  rcases hli : l.squadre[i]? with _ | team
  · rw [rinomina_none l i nuovo hli]
  · rw [rinomina_eq l i nuovo team hli]
    split_ifs with h1 h2
    · rfl
    · exact flatten_set_congr nomi_squadra l.squadre i team _ hli rfl
    · rfl

theorem reachT_nodup_elenco {l : Lega} (h : ReachT l) :
    (elenco_giocatori_global l).Nodup := by
  induction h with
  | init =>
    simp [elenco_giocatori_global, lega_iniziale, nomi_squadra_eq, squadra_default]
  | @acquire l ti nome ruolo prezzo hT htrim ih =>
    rcases hli : l.squadre[ti]? with _ | team
    · have heq : (aggiungi_giocatore l ti nome ruolo prezzo).1 = l := by
        simp [aggiungi_giocatore, hli]
      rw [heq]
      exact ih
    · obtain ⟨hiff, hsucc, hfail⟩ := aggiungi_spec l ti team nome ruolo prezzo hli
      rcases hb : (aggiungi_giocatore l ti nome ruolo prezzo).2 with _ | _
      · rw [hfail hb]
        exact ih
      · rw [hsucc hb]
        obtain ⟨hn, hr, hp, hdup, hq, hc⟩ := hiff.mp hb
        have hinv := reach_inv (reachT_reach hT)
        have hnd : strip nome ∉ elenco_giocatori_global l := by
          rw [htrim]
          refine hdup ?_
          rw [hinv.1]
          rfl
        obtain ⟨X, Y, hXY, hXY'⟩ :=
          nomi_squadra_acquisto team ruolo hr ⟨strip nome, ruolo, prezzo⟩
        exact nodup_flatten_set nomi_squadra (strip nome) l.squadre ti team _ hli
          ⟨X, Y, hXY, hXY'⟩ hnd ih
  | @remove l ti ruolo nome l' b hT hrem ih =>
    rcases hli : l.squadre[ti]? with _ | team
    · rw [rimuovi_lega_none l ti ruolo nome hli] at hrem
      exact absurd hrem (by simp)
    · rw [rimuovi_lega_eq l ti ruolo nome team hli] at hrem
      by_cases hr : ruolo ∈ RUOLI
      · rw [rimuovi_giocatore_valido team ruolo nome hr] at hrem
        rcases hrl : rimuovi_lista (team.rosa.att [] ruolo) nome with _ | elenco'
        · rw [hrl] at hrem
          simp only [Option.some.injEq, Prod.mk.injEq] at hrem
          rw [← hrem.1]
          have heq := flatten_set_congr nomi_squadra l.squadre ti team team hli rfl
          show ((l.squadre.set ti team).map nomi_squadra).flatten.Nodup
          rw [heq]
          exact ih
        · rw [hrl] at hrem
          simp only [Option.some.injEq, Prod.mk.injEq] at hrem
          rw [← hrem.1]
          obtain ⟨pre, g0, post, hsplit, _, _, rfl⟩ := rimuovi_lista_some hrl
          have hsub : List.Sublist (pre ++ post) (team.rosa.att [] ruolo) := by
            rw [hsplit]
            exact List.Sublist.append (List.Sublist.refl pre)
              (List.sublist_cons_self g0 post)
          have hnsub := nomi_squadra_rimozione team ruolo hr (pre ++ post) hsub
          exact List.Nodup.sublist
            (flatten_set_sublist nomi_squadra l.squadre ti team _ hli hnsub) ih
      · rw [rimuovi_giocatore_non_valido team ruolo nome hr] at hrem
        exact absurd hrem (by simp)
  | rename ti nuovo _ ih =>
    rw [elenco_rinomina]
    exact ih

theorem pyRound_zero : pyRound 0 = 0 := by
  norm_num [pyRound]

theorem pyRound_zero_mul (w : ℚ) : pyRound (0 * w) = 0 := by
  rw [zero_mul, pyRound_zero]

theorem assegna_sum (pool : Int) (w : String → ℚ) :
    ∀ (rs : List String), rs ≠ [] → ∀ acc : Int,
      ((assegna_rimanenti pool w rs acc).map Prod.snd).sum = pool - acc := by
  intro rs
  induction rs with
  | nil => intro h; exact absurd rfl h
  | cons r rest ih =>
    intro _ acc
    cases rest with
    | nil => simp [assegna_rimanenti]
    | cons r' rs' =>
      rw [show assegna_rimanenti pool w (r :: r' :: rs') acc =
        (r, pyRound ((pool : ℚ) * w r)) ::
          assegna_rimanenti pool w (r' :: rs') (acc + pyRound ((pool : ℚ) * w r)) from rfl]
      simp only [List.map_cons, List.sum_cons]
      rw [ih (by simp) (acc + pyRound ((pool : ℚ) * w r))]
      ring


theorem assegna_zero (w : String → ℚ) :
    ∀ rs : List String, assegna_rimanenti 0 w rs 0 = rs.map fun r => (r, (0 : Int)) := by
  intro rs
  induction rs with
  | nil => rfl
  | cons r rest ih =>
    cases rest with
    | nil => simp [assegna_rimanenti]
    | cons r' rs' =>
      have hz : pyRound (((0 : Int) : ℚ) * w r) = 0 := by
        rw [Int.cast_zero, zero_mul, pyRound_zero]
      rw [show assegna_rimanenti 0 w (r :: r' :: rs') 0 =
        (r, pyRound (((0 : Int) : ℚ) * w r)) ::
          assegna_rimanenti 0 w (r' :: rs') (0 + pyRound (((0 : Int) : ℚ) * w r)) from rfl]
      rw [hz]
      norm_num
      rw [ih]
      simp

theorem assegna_eq (pool : Int) (w : String → ℚ) :
    ∀ (rs : List String) (h : rs ≠ []) (acc : Int),
      assegna_rimanenti pool w rs acc =
        (rs.dropLast.map fun r => (r, pyRound ((pool : ℚ) * w r))) ++
          [(rs.getLast h,
            pool - acc - ((rs.dropLast.map fun r => pyRound ((pool : ℚ) * w r)).sum))] := by
  intro rs
  induction rs with
  | nil => intro h; exact absurd rfl h
  | cons r rest ih =>
    intro hne acc
    cases rest with
    | nil => simp [assegna_rimanenti, List.getLast]
    | cons r' rs' =>
      rw [show assegna_rimanenti pool w (r :: r' :: rs') acc =
        (r, pyRound ((pool : ℚ) * w r)) ::
          assegna_rimanenti pool w (r' :: rs') (acc + pyRound ((pool : ℚ) * w r)) from rfl]
      rw [ih (by simp) (acc + pyRound ((pool : ℚ) * w r))]
      rw [show (r :: r' :: rs').dropLast = r :: (r' :: rs').dropLast from rfl]
      rw [show (r :: r' :: rs').getLast hne = (r' :: rs').getLast (by simp) from rfl]
      simp only [List.map_cons, List.sum_cons, List.cons_append]
      congr 2
      ring

theorem dict_get_append_not_mem (k : String) :
    ∀ (d1 d2 : List (String × Int)), k ∉ d1.map Prod.fst →
      dict_get (d1 ++ d2) k = dict_get d2 k := by
  intro d1
  induction d1 with
  | nil => intro d2 _; rfl
  | cons p d1 ih =>
    intro d2 hk
    simp only [List.map_cons, List.mem_cons, not_or] at hk
    rw [List.cons_append, show dict_get (p :: (d1 ++ d2)) k =
      if p.1 = k then p.2 else dict_get (d1 ++ d2) k from rfl,
      if_neg (fun hc => hk.1 hc.symm)]
    exact ih d2 hk.2

theorem dict_set_append_not_mem (k : String) (v : Int) :
    ∀ (d1 d2 : List (String × Int)), k ∉ d1.map Prod.fst →
      dict_set (d1 ++ d2) k v = d1 ++ dict_set d2 k v := by
  intro d1
  induction d1 with
  | nil => intro d2 _; rfl
  | cons p d1 ih =>
    intro d2 hk
    simp only [List.map_cons, List.mem_cons, not_or] at hk
    rw [List.cons_append, show dict_set (p :: (d1 ++ d2)) k v =
      if p.1 = k then (p.1, v) :: (d1 ++ d2) else p :: dict_set (d1 ++ d2) k v from rfl,
      if_neg (fun hc => hk.1 hc.symm), ih d2 hk.2]
    rfl

theorem corpo_dyn_eq (t0 : List (String × Int)) (budget pool : Int) (r0 : String)
    (rs : List String) (w : String → ℚ)
    (hpool : pool = if budget - (t0.map Prod.snd).sum < 0 then 0
      else budget - (t0.map Prod.snd).sum)
    (hkey : r0 ∉ t0.map Prod.fst) :
    (if budget - ((t0 ++ assegna_rimanenti pool w (r0 :: rs) 0).map Prod.snd).sum = 0
     then t0 ++ assegna_rimanenti pool w (r0 :: rs) 0
     else dict_set (t0 ++ assegna_rimanenti pool w (r0 :: rs) 0) r0
       (max 0 (dict_get (t0 ++ assegna_rimanenti pool w (r0 :: rs) 0) r0 +
         (budget - ((t0 ++ assegna_rimanenti pool w (r0 :: rs) 0).map Prod.snd).sum)))) =
    t0 ++ (((r0 :: rs).dropLast.map fun r => (r, pyRound ((pool : ℚ) * w r))) ++
      [((r0 :: rs).getLast (List.cons_ne_nil r0 rs),
        pool - ((r0 :: rs).dropLast.map fun r => pyRound ((pool : ℚ) * w r)).sum)]) := by
  have hsum : ((assegna_rimanenti pool w (r0 :: rs) 0).map Prod.snd).sum = pool - 0 :=
    assegna_sum pool w (r0 :: rs) (List.cons_ne_nil r0 rs) 0
  have ht1 : ((t0 ++ assegna_rimanenti pool w (r0 :: rs) 0).map Prod.snd).sum =
      (t0.map Prod.snd).sum + pool := by
    rw [List.map_append, List.sum_append, hsum]
    ring
  by_cases hlt : budget - (t0.map Prod.snd).sum < 0
  · rw [if_pos hlt] at hpool
    subst hpool
    have hz := assegna_zero w (r0 :: rs)
    have h0 : ((List.map (fun r => (r, (0 : Int))) (r0 :: rs)).map Prod.snd).sum = 0 := by
      refine List.sum_eq_zero fun x hx => ?_
      obtain ⟨y, hy, rfl⟩ := List.mem_map.mp hx
      obtain ⟨z, _, rfl⟩ := List.mem_map.mp hy
      rfl
    rw [if_neg (by rw [ht1]; omega)]
    rw [hz, List.map_append, List.sum_append, h0]
    rw [dict_get_append_not_mem r0 t0 _ hkey]
    rw [dict_set_append_not_mem r0 _ t0 _ hkey]
    have hget : dict_get (List.map (fun r => (r, (0 : Int))) (r0 :: rs)) r0 = 0 := by
      rw [List.map_cons]
      rw [show dict_get ((r0, (0 : Int)) :: List.map (fun r => (r, (0 : Int))) rs) r0 =
        if r0 = r0 then (0 : Int) else dict_get (List.map (fun r => (r, (0 : Int))) rs) r0
        from rfl]
      rw [if_pos rfl]
    rw [hget, zero_add, max_eq_left (by omega)]
    have hset : dict_set (List.map (fun r => (r, (0 : Int))) (r0 :: rs)) r0 0 =
        List.map (fun r => (r, (0 : Int))) (r0 :: rs) := by
      rw [List.map_cons]
      rw [show dict_set ((r0, (0 : Int)) :: List.map (fun r => (r, (0 : Int))) rs) r0 0 =
        if r0 = r0 then (r0, (0 : Int)) :: List.map (fun r => (r, (0 : Int))) rs
        else (r0, (0 : Int)) :: dict_set (List.map (fun r => (r, (0 : Int))) rs) r0 0
        from rfl]
      rw [if_pos rfl]
    rw [hset]
    congr 1
    rw [show (((r0 :: rs).dropLast.map fun r => (r, pyRound (((0 : Int) : ℚ) * w r)))) =
      ((r0 :: rs).dropLast.map fun r => (r, (0 : Int))) from
        List.map_congr_left fun r _ => by rw [Int.cast_zero, zero_mul, pyRound_zero]]
    rw [show (((r0 :: rs).dropLast.map fun r => pyRound (((0 : Int) : ℚ) * w r))) =
      ((r0 :: rs).dropLast.map fun _ => (0 : Int)) from
        List.map_congr_left fun r _ => by rw [Int.cast_zero, zero_mul, pyRound_zero]]
    rw [show (((r0 :: rs).dropLast.map fun _ => (0 : Int))).sum = 0 from
      List.sum_eq_zero fun x hx => by
        obtain ⟨y, _, rfl⟩ := List.mem_map.mp hx
        rfl]
    rw [sub_zero]
    rw [show ((r0 :: rs).map fun r => (r, (0 : Int))) =
      ((r0 :: rs).dropLast ++ [(r0 :: rs).getLast (List.cons_ne_nil r0 rs)]).map
        (fun r => (r, (0 : Int))) from by rw [List.dropLast_append_getLast]]
    rw [List.map_append, List.map_singleton]
  · rw [if_neg hlt] at hpool
    have hdiff : budget - ((t0 ++ assegna_rimanenti pool w (r0 :: rs) 0).map Prod.snd).sum
        = 0 := by
      rw [ht1]
      omega
    rw [if_pos hdiff]
    rw [assegna_eq pool w (r0 :: rs) (List.cons_ne_nil r0 rs) 0]
    rw [sub_zero]

theorem if_neg_eq_max (x : Int) : (if x < 0 then 0 else x) = max 0 x := by
  by_cases h : x < 0
  · rw [if_pos h, max_eq_left (by omega)]
  · rw [if_neg h, max_eq_right (by omega)]

theorem dyn_eq_spec (s : Impostazioni) (team : Squadra)
    (hfrac : ∀ r ∈ RUOLI, 0 ≤ s.spending_targets.att 0 r)
    (hcompl : (RUOLI.filter fun r =>
      s.quote_rosa.att 0 r ≤ ((team.rosa.att [] r).length : Int)) ≠ []) :
    target_per_ruolo_dynamic s team = target_dynamic_spec s team := by
  simp only [target_per_ruolo_dynamic, target_dynamic_spec]
  rw [if_neg hcompl]
  rcases hmatch : (RUOLI.filter fun r => r ∉ RUOLI.filter fun r' =>
      s.quote_rosa.att 0 r' ≤ ((team.rosa.att [] r').length : Int)) with _ | ⟨r0, rs⟩
  · rw [List.append_nil]
  · simp only []
    have hsubR : ∀ r ∈ r0 :: rs, r ∈ RUOLI := by
      intro r hr
      rw [← hmatch] at hr
      exact List.mem_of_mem_filter hr
    have htw : 0 ≤ ((r0 :: rs).map fun r => s.spending_targets.att 0 r).sum := by
      refine List.sum_nonneg fun x hx => ?_
      obtain ⟨r, hr, rfl⟩ := List.mem_map.mp hx
      exact hfrac r (hsubR r hr)
    have hwfun : (fun r =>
        if ((r0 :: rs).map fun r => s.spending_targets.att 0 r).sum ≤ 0 then
          1 / (((r0 :: rs).length : ℚ))
        else s.spending_targets.att 0 r /
          ((r0 :: rs).map fun r => s.spending_targets.att 0 r).sum) =
        peso_spec s (r0 :: rs) := by
      funext r
      simp only [peso_spec]
      by_cases h0 : ((r0 :: rs).map fun r => s.spending_targets.att 0 r).sum = 0
      · rw [if_pos (le_of_eq h0), if_pos h0]
      · rw [if_neg (not_le.mpr (lt_of_le_of_ne htw (Ne.symm h0))), if_neg h0]
    rw [hwfun]
    have hr0 : r0 ∉ RUOLI.filter fun r =>
        s.quote_rosa.att 0 r ≤ ((team.rosa.att [] r).length : Int) := by
      have hm : r0 ∈ RUOLI.filter fun r => r ∉ RUOLI.filter fun r' =>
          s.quote_rosa.att 0 r' ≤ ((team.rosa.att [] r').length : Int) := by
        rw [hmatch]
        exact List.mem_cons_self r0 rs
      exact of_decide_eq_true (List.mem_filter.mp hm).2
    have hkey : r0 ∉ ((RUOLI.filter fun r =>
        s.quote_rosa.att 0 r ≤ ((team.rosa.att [] r).length : Int)).map
          fun r => (r, spesa_per_ruolo team r)).map Prod.fst := by
      intro hx
      obtain ⟨p, hp, hfst⟩ := List.mem_map.mp hx
      obtain ⟨r', hr', rfl⟩ := List.mem_map.mp hp
      exact hr0 (hfst ▸ hr')
    rw [corpo_dyn_eq _ team.budget _ r0 rs (peso_spec s (r0 :: rs)) rfl hkey]
    have hlk : (List.map Prod.snd (List.map (fun r => (r, spesa_per_ruolo team r))
        (RUOLI.filter fun r => s.quote_rosa.att 0 r ≤ ((team.rosa.att [] r).length : Int)))) =
        List.map (fun r => spesa_per_ruolo team r)
          (RUOLI.filter fun r => s.quote_rosa.att 0 r ≤ ((team.rosa.att [] r).length : Int)) := by
      rw [List.map_map]
      rfl
    rw [hlk, if_neg_eq_max]

theorem dyn_tutti_completi (s : Impostazioni) (team : Squadra)
    (h : ∀ r ∈ RUOLI, s.quote_rosa.att 0 r ≤ ((team.rosa.att [] r).length : Int)) :
    target_per_ruolo_dynamic s team = RUOLI.map fun r => (r, spesa_per_ruolo team r) := by
  simp only [target_per_ruolo_dynamic]
  have hC : (RUOLI.filter fun r =>
      s.quote_rosa.att 0 r ≤ ((team.rosa.att [] r).length : Int)) = RUOLI :=
    List.filter_eq_self.mpr fun a ha => decide_eq_true (h a ha)
  rw [hC]
  rw [if_neg (by simp [RUOLI])]
  have hR : (RUOLI.filter fun r => r ∉ RUOLI) = [] :=
    List.filter_eq_nil_iff.mpr fun a ha => by simp [ha]
  rw [hR]

theorem somma_coppie (f : String → Int) (l : List String) :
    ((l.map fun r => (r, f r)).map Prod.snd).sum = (l.map f).sum := by
  rw [List.map_map]
  rfl

theorem somma_spec (s : Impostazioni) (team : Squadra) (r0 : String) (rs : List String)
    (hmatch : (RUOLI.filter fun r => r ∉ RUOLI.filter fun r' =>
      s.quote_rosa.att 0 r' ≤ ((team.rosa.att [] r').length : Int)) = r0 :: rs) :
    ((target_dynamic_spec s team).map Prod.snd).sum =
      ((RUOLI.filter fun r =>
        s.quote_rosa.att 0 r ≤ ((team.rosa.att [] r).length : Int)).map
          fun r => spesa_per_ruolo team r).sum +
      max 0 (team.budget - ((RUOLI.filter fun r =>
        s.quote_rosa.att 0 r ≤ ((team.rosa.att [] r).length : Int)).map
          fun r => spesa_per_ruolo team r).sum) := by
  simp only [target_dynamic_spec]
  rw [hmatch]
  simp only []
  rw [List.map_append, List.sum_append, somma_coppie]
  congr 1
  rw [List.map_append, List.sum_append, List.map_map]
  rw [show (List.map (Prod.snd ∘ fun r =>
      (r, pyRound ((((max 0 (team.budget - ((RUOLI.filter fun r =>
        s.quote_rosa.att 0 r ≤ ((team.rosa.att [] r).length : Int)).map
          fun r => spesa_per_ruolo team r).sum)) : Int) : ℚ) * peso_spec s (r0 :: rs) r)))
      (r0 :: rs).dropLast) =
    (List.map (fun r => pyRound ((((max 0 (team.budget - ((RUOLI.filter fun r =>
        s.quote_rosa.att 0 r ≤ ((team.rosa.att [] r).length : Int)).map
          fun r => spesa_per_ruolo team r).sum)) : Int) : ℚ) * peso_spec s (r0 :: rs) r))
      (r0 :: rs).dropLast) from rfl]
  simp only [List.map_cons, List.map_nil, List.sum_cons, List.sum_nil]
  ring

theorem att_P {α : Type} (m : MappaRuoli α) (d : α) : m.att d "P" = m.P := rfl

theorem att_D {α : Type} (m : MappaRuoli α) (d : α) : m.att d "D" = m.D := rfl

theorem att_C {α : Type} (m : MappaRuoli α) (d : α) : m.att d "C" = m.C := rfl

theorem att_A {α : Type} (m : MappaRuoli α) (d : α) : m.att d "A" = m.A := rfl

theorem dyn_nessun_completo (s : Impostazioni) (team : Squadra)
    (h : (RUOLI.filter fun r =>
      s.quote_rosa.att 0 r ≤ ((team.rosa.att [] r).length : Int)) = []) :
    target_per_ruolo_dynamic s team = target_per_ruolo s team := by
  simp only [target_per_ruolo_dynamic]
  rw [if_pos h]

theorem somma_statica (team : Squadra) (hb : team.budget = 700) :
    ((target_per_ruolo SETTINGS team).map Prod.snd).sum = 700 := by
  simp only [target_per_ruolo]
  rw [somma_coppie, hb]
  simp only [RUOLI, List.map_cons, List.map_nil, List.sum_cons, List.sum_nil,
    att_P, att_D, att_C, att_A]
  norm_num [SETTINGS, pyRound, Int.floor_eq_iff]

theorem set_getElem_self {α : Type} :
    ∀ (l : List α) (i : Nat) (a : α), l[i]? = some a → l.set i a = l := by
  intro l
  induction l with
  | nil => intro i a h; simp at h
  | cons x xs ih =>
    intro i a h
    cases i with
    | zero =>
      simp only [List.getElem?_cons_zero, Option.some.injEq] at h
      simp [h]
    | succ n =>
      simp only [List.getElem?_cons_succ] at h
      simp only [List.set_cons_succ, List.cons.injEq, true_and]
      exact ih n a h

theorem completati_ne_nil (s : Impostazioni) (team : Squadra) (r : String)
    (hr : r ∈ RUOLI) (hge : s.quote_rosa.att 0 r ≤ ((team.rosa.att [] r).length : Int)) :
    (RUOLI.filter fun r' =>
      s.quote_rosa.att 0 r' ≤ ((team.rosa.att [] r').length : Int)) ≠ [] := by
  intro hnil
  rw [List.filter_eq_nil_iff] at hnil
  exact hnil r hr (decide_eq_true hge)

theorem rimanenti_ne_nil (s : Impostazioni) (team : Squadra) (r : String)
    (hr : r ∈ RUOLI) (hlt : ((team.rosa.att [] r).length : Int) < s.quote_rosa.att 0 r) :
    (RUOLI.filter fun r' => r' ∉ RUOLI.filter fun r'' =>
      s.quote_rosa.att 0 r'' ≤ ((team.rosa.att [] r'').length : Int)) ≠ [] := by
  intro hnil
  rw [List.filter_eq_nil_iff] at hnil
  refine hnil r hr (decide_eq_true ?_)
  intro hmem
  have := of_decide_eq_true (List.mem_filter.mp hmem).2
  omega

theorem settings_frac_nonneg : ∀ r ∈ RUOLI, 0 ≤ SETTINGS.spending_targets.att 0 r := by
  intro r hr
  have : r = "P" ∨ r = "D" ∨ r = "C" ∨ r = "A" := by simpa [RUOLI] using hr
  rcases this with rfl | rfl | rfl | rfl <;>
    norm_num [SETTINGS, att_P, att_D, att_C, att_A]

theorem spesa_ruolo_nonneg (team : Squadra)
    (hpos : ∀ r : String, ∀ g ∈ team.rosa.att [] r, 0 ≤ g.prezzo) (r : String) :
    0 ≤ spesa_per_ruolo team r := by
  refine List.sum_nonneg fun x hx => ?_
  obtain ⟨g, hg, rfl⟩ := List.mem_map.mp hx
  exact hpos r g hg

theorem somma_filtrata_le (team : Squadra) (p : String → Bool)
    (hpos : ∀ r : String, ∀ g ∈ team.rosa.att [] r, 0 ≤ g.prezzo) :
    ((RUOLI.filter p).map fun r => spesa_per_ruolo team r).sum ≤ spesa_totale team := by
  unfold spesa_totale
  refine List.Sublist.sum_le_sum ((List.filter_sublist RUOLI).map (spesa_per_ruolo team)) ?_
  intro x hx
  obtain ⟨r, _, rfl⟩ := List.mem_map.mp hx
  exact spesa_ruolo_nonneg team hpos r

/-- Claim C1: `aggiungi_giocatore` succeeds if and only if the stripped name is
non-empty, the role is one of P/D/C/A, the price is non-negative, when
duplicates are disallowed the (exact, unstripped) name is absent from every
roster league-wide, the team's remaining quota for the role is positive and
its remaining credits cover the price; on success it appends exactly the one
stripped-name roster entry and exactly one purchase record, and on any
failure the whole league state is unchanged. -/
theorem acquisto_caratterizzazione (l : Lega) (ti : Nat) (team : Squadra)
    (nome ruolo : String) (prezzo : Int) (h : l.squadre[ti]? = some team) :
    ((aggiungi_giocatore l ti nome ruolo prezzo).2 = true ↔
      (strip nome ≠ "" ∧ ruolo ∈ RUOLI ∧ 0 ≤ prezzo ∧
       (l.settings.no_doppioni = true → nome ∉ elenco_giocatori_global l) ∧
       0 < quote_rimaste l.settings team ruolo ∧
       prezzo ≤ crediti_rimasti team)) ∧
    ((aggiungi_giocatore l ti nome ruolo prezzo).2 = true →
      (aggiungi_giocatore l ti nome ruolo prezzo).1 = { l with
          squadre := l.squadre.set ti
            { team with rosa := (team.rosa.imposta ruolo
                (team.rosa.att [] ruolo ++ [⟨strip nome, ruolo, prezzo⟩])) }
          storico := l.storico ++ [⟨team.nome, strip nome, ruolo, prezzo⟩] }) ∧
    ((aggiungi_giocatore l ti nome ruolo prezzo).2 = false →
      (aggiungi_giocatore l ti nome ruolo prezzo).1 = l) :=
  aggiungi_spec l ti team nome ruolo prezzo h

theorem acquisto_caratterizzazione_test :
    (aggiungi_giocatore lega_iniziale 0 "Rossi" "P" 10).2 = true :=
  (acquisto_caratterizzazione lega_iniziale 0 (squadra_default "Terzetto Scherzetto")
    "Rossi" "P" 10 (by rfl)).1.mpr (by decide)

/-- Claim C2, counterexample: from the initial league, acquiring `"X"` for team 0
and then the untrimmed `" X"` for team 1 are both accepted, producing a
reachable state in which the stored name `"X"` occupies two roster slots,
so the duplicate invariant fails as claimed. -/
theorem invariante_doppioni_controesempio :
    Reach lega_doppione ∧ ¬ (elenco_giocatori_global lega_doppione).Nodup :=
  ⟨reach_applica lega_iniziale Reach.init _, by decide⟩

/-- Claim C2, amended: when every `aggiungi_giocatore` call passes a name equal
to its stripped form, every stored player name appears in at most one
(team, role) slot league-wide after any sequence of operations; as stated
the claim fails because the duplicate check compares the unstripped input
against the stripped stored names. -/
theorem invariante_doppioni_nomi_trim (l : Lega) (h : ReachT l) :
    (elenco_giocatori_global l).Nodup :=
  reachT_nodup_elenco h

theorem invariante_doppioni_nomi_trim_test :
    (elenco_giocatori_global (aggiungi_giocatore lega_iniziale 0 "Rossi" "P" 10).1).Nodup :=
  invariante_doppioni_nomi_trim _ (ReachT.acquire 0 "Rossi" "P" 10 ReachT.init (by decide))

/-- Claim C3: in every reachable league state, every team's total roster spend is
at most its budget; equivalently its remaining credits are non-negative. -/
theorem invariante_budget (l : Lega) (h : Reach l) :
    ∀ team ∈ l.squadre, spesa_totale team ≤ team.budget ∧ 0 ≤ crediti_rimasti team := by
  intro team hm
  have hinv := (reach_inv h).2 team hm
  refine ⟨hinv.2.2.1, ?_⟩
  unfold crediti_rimasti
  have := hinv.2.2.1
  omega

theorem invariante_budget_test :
    spesa_totale (squadra_default "Terzetto Scherzetto") ≤
      (squadra_default "Terzetto Scherzetto").budget ∧
    0 ≤ crediti_rimasti (squadra_default "Terzetto Scherzetto") :=
  invariante_budget lega_iniziale Reach.init
    (squadra_default "Terzetto Scherzetto") (by decide)

/-- Claim C4: in every reachable league state, no team's roster exceeds the
per-role quota at any of the four roles. -/
theorem invariante_quote (l : Lega) (h : Reach l) :
    ∀ team ∈ l.squadre, ∀ r ∈ RUOLI,
      ((team.rosa.att [] r).length : Int) ≤ l.settings.quote_rosa.att 0 r := by
  intro team hm r hr
  have hinv := reach_inv h
  rw [hinv.1]
  exact (hinv.2 team hm).2.2.2 r hr

theorem invariante_quote_test :
    (((squadra_default "Terzetto Scherzetto").rosa.att [] "P").length : Int) ≤
      lega_iniziale.settings.quote_rosa.att 0 "P" :=
  invariante_quote lega_iniziale Reach.init
    (squadra_default "Terzetto Scherzetto") (by decide) "P" (by decide)

/-- Claim C5: for every team with at least one completed and one uncompleted
role (and non-negative fractions, as the data model requires),
`target_per_ruolo_dynamic` computes exactly the allocation the
specification words describe (`target_dynamic_spec`): completed roles
locked at actual spend, the clamped pool split over the open roles by
normalized original fractions with the last open role absorbing the
remainder; in particular on Scenario D (budget 700, GK quota completed at
a spend of 50) it returns P↦50, D↦144, C↦217, A↦289. -/
theorem target_dynamic_caratterizzazione (s : Impostazioni) (team : Squadra)
    (hfrac : ∀ r ∈ RUOLI, 0 ≤ s.spending_targets.att 0 r)
    (hcompl : ∃ r ∈ RUOLI, s.quote_rosa.att 0 r ≤ ((team.rosa.att [] r).length : Int))
    (hrem : ∃ r ∈ RUOLI, ((team.rosa.att [] r).length : Int) < s.quote_rosa.att 0 r) :
    target_per_ruolo_dynamic s team = target_dynamic_spec s team ∧
    target_per_ruolo_dynamic SETTINGS squadra_esempio =
      [("P", 50), ("D", 144), ("C", 217), ("A", 289)] := by
  constructor
  · obtain ⟨r, hr, hge⟩ := hcompl
    exact dyn_eq_spec s team hfrac (completati_ne_nil s team r hr hge)
  · norm_num [target_per_ruolo_dynamic, squadra_esempio, SETTINGS, QUOTE_ROSA, RUOLI,
      MappaRuoli.att, spesa_per_ruolo, assegna_rimanenti, dict_set, dict_get,
      pyRound, Int.floor_eq_iff, target_per_ruolo,
      show ("D" : String) ≠ "P" from by decide, show ("C" : String) ≠ "P" from by decide,
      show ("C" : String) ≠ "D" from by decide, show ("A" : String) ≠ "P" from by decide,
      show ("A" : String) ≠ "D" from by decide, show ("A" : String) ≠ "C" from by decide,
      show ("P" : String) ≠ "D" from by decide, show ("P" : String) ≠ "C" from by decide,
      show ("P" : String) ≠ "A" from by decide, show ("D" : String) ≠ "C" from by decide,
      show ("D" : String) ≠ "A" from by decide, show ("C" : String) ≠ "A" from by decide]

theorem target_dynamic_caratterizzazione_test :
    target_per_ruolo_dynamic SETTINGS squadra_esempio =
      target_dynamic_spec SETTINGS squadra_esempio ∧
    target_per_ruolo_dynamic SETTINGS squadra_esempio =
      [("P", 50), ("D", 144), ("C", 217), ("A", 289)] :=
  target_dynamic_caratterizzazione SETTINGS squadra_esempio settings_frac_nonneg
    ⟨"P", by decide, by decide⟩ ⟨"D", by decide, by decide⟩

/-- Claim C6, counterexample: the reachable state in which team 0 has filled all
25 quota slots at price 0 is a roster state where the dynamic targets sum
to 0, not to the 700-credit budget (±1): the target-sum property fails for
all-completed rosters. -/
theorem somma_target_controesempio :
    Reach lega_completa ∧
    squadra_completa ∈ lega_completa.squadre ∧
    (∀ r ∈ RUOLI, lega_completa.settings.quote_rosa.att 0 r ≤
      ((squadra_completa.rosa.att [] r).length : Int)) ∧
    ((target_per_ruolo_dynamic lega_completa.settings squadra_completa).map Prod.snd).sum
      = 0 ∧
    squadra_completa.budget = 700 ∧
    ¬ ((squadra_completa.budget -
        ((target_per_ruolo_dynamic lega_completa.settings squadra_completa).map
          Prod.snd).sum).natAbs ≤ 1) :=
  ⟨reach_applica lega_iniziale Reach.init acquisti_completi,
   by decide, by decide, by decide, by decide, by decide⟩

/-- Claim C6, amended: for every reachable state and team, if at least one role
is still uncompleted the dynamic targets sum exactly (so within ±1) to the
team's budget; if every role is completed the sum instead equals the
team's total spend, which can differ from the budget by more than 1. -/
theorem somma_target_corretta (l : Lega) (h : Reach l) (team : Squadra)
    (hm : team ∈ l.squadre) :
    ((∃ r ∈ RUOLI, ((team.rosa.att [] r).length : Int) < l.settings.quote_rosa.att 0 r) →
      ((target_per_ruolo_dynamic l.settings team).map Prod.snd).sum = team.budget) ∧
    ((∀ r ∈ RUOLI, l.settings.quote_rosa.att 0 r ≤ ((team.rosa.att [] r).length : Int)) →
      ((target_per_ruolo_dynamic l.settings team).map Prod.snd).sum = spesa_totale team) := by
  have hinv := reach_inv h
  have hts := hinv.2 team hm
  rw [hinv.1]
  constructor
  · rintro ⟨r, hr, hlt⟩
    by_cases hC : (RUOLI.filter fun r' =>
        SETTINGS.quote_rosa.att 0 r' ≤ ((team.rosa.att [] r').length : Int)) = []
    · rw [dyn_nessun_completo SETTINGS team hC, somma_statica team hts.1, hts.1]
    · rcases hRm : (RUOLI.filter fun r' => r' ∉ RUOLI.filter fun r'' =>
          SETTINGS.quote_rosa.att 0 r'' ≤ ((team.rosa.att [] r'').length : Int))
          with _ | ⟨r0, rs⟩
      · exact absurd hRm (rimanenti_ne_nil SETTINGS team r hr hlt)
      · rw [dyn_eq_spec SETTINGS team settings_frac_nonneg hC,
          somma_spec SETTINGS team r0 rs hRm]
        have hle := somma_filtrata_le team
          (fun r' => decide (SETTINGS.quote_rosa.att 0 r' ≤
            ((team.rosa.att [] r').length : Int))) hts.2.1
        have hsb := hts.2.2.1
        rw [max_eq_right (by omega)]
        omega
  · intro hall
    rw [dyn_tutti_completi SETTINGS team hall, somma_coppie]
    rfl

theorem somma_target_corretta_test :
    ((target_per_ruolo_dynamic lega_iniziale.settings
      (squadra_default "Terzetto Scherzetto")).map Prod.snd).sum =
      (squadra_default "Terzetto Scherzetto").budget :=
  (somma_target_corretta lega_iniziale Reach.init (squadra_default "Terzetto Scherzetto")
    (by decide)).1 ⟨"P", by decide, by decide⟩

/-- Claim C7: for a valid role code, `rimuovi_giocatore` (lifted to the league)
never faults; it removes exactly the first roster entry whose stored name
equals the given name and returns `true`, or returns `false` leaving the
state unchanged when no entry matches; in both cases the purchase log, the
settings and every other team are untouched, and the log only ever grows —
by exactly one per accepted acquisition. -/
theorem rimozione_caratterizzazione (l : Lega) (ti : Nat) (team : Squadra)
    (ruolo nome : String) (h : l.squadre[ti]? = some team) (hr : ruolo ∈ RUOLI) :
    (∃ l' b, rimuovi_lega l ti ruolo nome = some (l', b)) ∧
    (∀ l' b, rimuovi_lega l ti ruolo nome = some (l', b) →
      l'.storico = l.storico ∧ l'.settings = l.settings ∧
      (∀ j : Nat, j ≠ ti → l'.squadre[j]? = l.squadre[j]?) ∧
      (b = false → l' = l ∧ nome ∉ (team.rosa.att [] ruolo).map Giocatore.nome) ∧
      (b = true → nome ∈ (team.rosa.att [] ruolo).map Giocatore.nome ∧
        ∃ pre g post, team.rosa.att [] ruolo = pre ++ g :: post ∧ g.nome = nome ∧
          (∀ g' ∈ pre, g'.nome ≠ nome) ∧
          l'.squadre = l.squadre.set ti
            { team with rosa := team.rosa.imposta ruolo (pre ++ post) })) ∧
    (∀ (ti' : Nat) (n' r' : String) (p' : Int),
      ((aggiungi_giocatore l ti' n' r' p').1.storico).length =
        l.storico.length +
          (if (aggiungi_giocatore l ti' n' r' p').2 = true then 1 else 0)) := by
  rw [rimuovi_lega_eq l ti ruolo nome team h, rimuovi_giocatore_valido team ruolo nome hr]
  refine ⟨?_, ?_, ?_⟩
  · rcases hrl : rimuovi_lista (team.rosa.att [] ruolo) nome with _ | elenco'
    · exact ⟨{ l with squadre := l.squadre.set ti team }, false, rfl⟩
    · exact ⟨{ l with squadre := (l.squadre.set ti
        { team with rosa := team.rosa.imposta ruolo elenco' }) }, true, rfl⟩
  · intro l' b heq
    rcases hrl : rimuovi_lista (team.rosa.att [] ruolo) nome with _ | elenco'
    · rw [hrl] at heq
      simp only [Option.some.injEq, Prod.mk.injEq] at heq
      obtain ⟨hl', hb⟩ := heq
      have hset := set_getElem_self l.squadre ti team h
      have hleq : l' = l := by
        rw [← hl', hset]
      refine ⟨by rw [hleq], by rw [hleq], fun j _ => by rw [hleq], ?_, ?_⟩
      · exact fun _ => ⟨hleq, rimuovi_lista_none.mp hrl⟩
      · intro hb'
        rw [← hb] at hb'
        exact absurd hb' (by simp)
    · rw [hrl] at heq
      simp only [Option.some.injEq, Prod.mk.injEq] at heq
      obtain ⟨hl', hb⟩ := heq
      obtain ⟨pre, g, post, hsplit, hgn, hpre, rfl⟩ := rimuovi_lista_some hrl
      refine ⟨by rw [← hl'], by rw [← hl'], ?_, ?_, ?_⟩
      · intro j hj
        rw [← hl']
        exact List.getElem?_set_ne (fun hc => hj hc.symm)
      · intro hb'
        rw [← hb] at hb'
        exact absurd hb' (by simp)
      · intro _
        refine ⟨?_, pre, g, post, hsplit, hgn, hpre, by rw [← hl']⟩
        rw [hsplit, List.map_append, List.map_cons]
        exact List.mem_append.mpr (Or.inr (by rw [hgn]; exact List.mem_cons_self _ _))
  · intro ti' n' r' p'
    rcases hli : l.squadre[ti']? with _ | team'
    · have heq : aggiungi_giocatore l ti' n' r' p' = (l, false) := by
        simp [aggiungi_giocatore, hli]
      rw [heq]
      simp
    · obtain ⟨_, hsucc, hfail⟩ := aggiungi_spec l ti' team' n' r' p' hli
      rcases hb : (aggiungi_giocatore l ti' n' r' p').2 with _ | _
      · rw [hfail hb, if_neg (by simp [hb])]
        simp
      · rw [hsucc hb, if_pos rfl]
        simp

theorem rimozione_caratterizzazione_test :
    ∃ l' b, rimuovi_lega lega_iniziale 0 "P" "X" = some (l', b) :=
  (rimozione_caratterizzazione lega_iniziale 0 (squadra_default "Terzetto Scherzetto")
    "P" "X" (by rfl) (by decide)).1

/-- Claim C8, counterexample: renaming team 1 to `" X"` succeeds and stores the
name exactly as entered, `" X"`, not its trimmed form `"X"`: the rename
block only strips for the emptiness test and assigns the raw input. -/
theorem rinomina_trim_controesempio :
    ((rinomina_squadra lega_iniziale 1 " X").squadre.map Squadra.nome) =
      ["Terzetto Scherzetto", " X", "Squadra 3", "Squadra 4", "Squadra 5",
       "Squadra 6", "Squadra 7", "Squadra 8", "Squadra 9", "Squadra 10"] ∧
    " X" ≠ strip " X" :=
  ⟨by decide, by decide⟩

/-- Claim C8, amended: the rename block strips the entered name only to test it
for emptiness; if the stripped name is empty or the input equals the
current name (compared unstripped) nothing changes; if another team's name
exactly equals the unstripped input the rename is rejected with no state
change; otherwise the team's stored name becomes the input string exactly
as given, unstripped. -/
theorem rinomina_caratterizzazione (l : Lega) (i : Nat) (team : Squadra)
    (nuovo : String) (h : l.squadre[i]? = some team) :
    ((strip nuovo = "" ∨ nuovo = team.nome) → rinomina_squadra l i nuovo = l) ∧
    (strip nuovo ≠ "" → nuovo ≠ team.nome →
      nuovo ∈ (l.squadre.eraseIdx i).map Squadra.nome → rinomina_squadra l i nuovo = l) ∧
    (strip nuovo ≠ "" → nuovo ≠ team.nome →
      nuovo ∉ (l.squadre.eraseIdx i).map Squadra.nome →
      rinomina_squadra l i nuovo =
        { l with squadre := l.squadre.set i { team with nome := nuovo } }) :=
  rinomina_spec l i team nuovo h

theorem rinomina_caratterizzazione_test :
    rinomina_squadra lega_iniziale 1 " X" =
      { lega_iniziale with squadre := (lega_iniziale.squadre.set 1
          { squadra_default "Squadra 2" with nome := " X" }) } :=
  (rinomina_caratterizzazione lega_iniziale 1 (squadra_default "Squadra 2") " X"
    (by rfl)).2.2 (by decide) (by decide) (by decide)

/-- Claim C9: renaming a team to its current name, or to an empty or
whitespace-only string, leaves the entire league state — every team name,
every roster, the purchase log and the settings — unchanged. -/
theorem rinomina_noop (l : Lega) (i : Nat) (team : Squadra) (nuovo : String)
    (h : l.squadre[i]? = some team) (hno : strip nuovo = "" ∨ nuovo = team.nome) :
    rinomina_squadra l i nuovo = l :=
  (rinomina_spec l i team nuovo h).1 hno

theorem rinomina_noop_test :
    rinomina_squadra lega_iniziale 0 "   " = lega_iniziale ∧
    rinomina_squadra lega_iniziale 0 "Terzetto Scherzetto" = lega_iniziale :=
  ⟨rinomina_noop lega_iniziale 0 (squadra_default "Terzetto Scherzetto") "   "
      (by rfl) (Or.inl (by decide)),
   rinomina_noop lega_iniziale 0 (squadra_default "Terzetto Scherzetto")
      "Terzetto Scherzetto" (by rfl) (Or.inr rfl)⟩

/-- Claim C10: calling `rimuovi_giocatore` with a role code outside P/D/C/A does
not produce a not-found result: it faults with a key-lookup error
(modelled as `none`), because the roster dict is keyed only by the four
codes and the function indexes it unchecked; for any of the four valid
codes the call always returns a result. -/
theorem rimozione_ruolo_non_valido (team : Squadra) (ruolo nome : String) :
    (ruolo ∉ RUOLI → rimuovi_giocatore team ruolo nome = none) ∧
    (ruolo ∈ RUOLI → ∃ res, rimuovi_giocatore team ruolo nome = some res) := by
  constructor
  · exact fun hns => rimuovi_giocatore_non_valido team ruolo nome hns
  · intro hs
    rw [rimuovi_giocatore_valido team ruolo nome hs]
    rcases hrl : rimuovi_lista (team.rosa.att [] ruolo) nome with _ | elenco'
    · exact ⟨(team, false), rfl⟩
    · exact ⟨({ team with rosa := team.rosa.imposta ruolo elenco' }, true), rfl⟩

theorem rimozione_ruolo_non_valido_test :
    rimuovi_giocatore (squadra_default "T") "X" "a" = none ∧
    ∃ res, rimuovi_giocatore (squadra_default "T") "P" "a" = some res :=
  ⟨(rimozione_ruolo_non_valido (squadra_default "T") "X" "a").1 (by decide),
   (rimozione_ruolo_non_valido (squadra_default "T") "P" "a").2 (by decide)⟩
